import Mathlib

/-!
Verification of the spaced-repetition scheduling core of GreengoLingo
(`rust/src/srs/{card,scheduler,vocabulary}.rs`), shallowly embedded in Lean.

Modelling conventions:
- Rust `f32` fields (`ease_factor`, accuracy values) are modelled as exact
  rationals `ℚ`; the algorithms only add, multiply, clamp and compare
  values of modest magnitude, which the rational model reflects faithfully.
- Rust `u32`/`usize` are modelled as `Nat` (no overflow occurs in the
  quantities the claims range over).
- Rust `HashMap` is modelled as an association list with unique keys
  (insert overwrites, lookup finds the binding); `Vec` is `List`.
- Date strings are Lean `String`s; the parsing and formatting mirror the
  Rust code character for character on the ASCII dates involved.
-/

namespace GreengoLingo

/-! ## Date arithmetic (scheduler.rs, `add_days_to_date`) -/

/-- Leap-year rule from `days_in_month` in scheduler.rs:
`(y % 4 == 0 && y % 100 != 0) || (y % 400 == 0)`. -/
def isLeap (y : Nat) : Bool :=
  (y % 4 == 0 && y % 100 != 0) || (y % 400 == 0)

/-- The `days_in_month` closure of `add_days_to_date` in scheduler.rs,
including its `_ => 30` fallback arm for out-of-range months. -/
def daysInMonth (y m : Nat) : Nat :=
  if m = 1 ∨ m = 3 ∨ m = 5 ∨ m = 7 ∨ m = 8 ∨ m = 10 ∨ m = 12 then 31
  else if m = 4 ∨ m = 6 ∨ m = 9 ∨ m = 11 then 30
  else if m = 2 then (if isLeap y then 29 else 28)
  else 30

/-- One structural unfolding of the rollover `while` loop of
`add_days_to_date`: while the day count exceeds the current month length,
subtract the month length and advance the month, rolling the year over after
December. The fuel argument only bounds the number of iterations; each
iteration strictly decreases the day count, so fuel equal to the initial day
count always suffices, so the exit condition is always reached. -/
def rolloverGo : Nat → Nat → Nat → Nat → Nat × Nat × Nat
  | 0, y, m, d => (y, m, d)
  | fuel + 1, y, m, d =>
    if daysInMonth y m < d then
      if 12 < m + 1 then rolloverGo fuel (y + 1) 1 (d - daysInMonth y m)
      else rolloverGo fuel y (m + 1) (d - daysInMonth y m)
    else (y, m, d)

/-- The rollover loop of `add_days_to_date`, entered with enough fuel. -/
def rolloverLoop (y m d : Nat) : Nat × Nat × Nat := rolloverGo d y m d

/-- Number of days in a Gregorian year under the leap rule of scheduler.rs. -/
def daysInYear (y : Nat) : Nat := if isLeap y then 366 else 365

/-- Days contributed by the months strictly before month `m` of year `y`. -/
def monthsBefore (y m : Nat) : Nat :=
  ((List.range (m - 1)).map (fun k => daysInMonth y (k + 1))).sum

/-- Days contributed by the years strictly before year `y`. -/
def yearsBefore : Nat → Nat
  | 0 => 0
  | y + 1 => yearsBefore y + daysInYear y

/-- Absolute day number of a (year, month, day) triple: the count of days
from day 1 of month 1 of year 0.  Calendar-correct date addition is exactly
addition on this quantity. -/
def absDay (r : Nat × Nat × Nat) : Nat :=
  yearsBefore r.1 + monthsBefore r.1 r.2.1 + r.2.2

/-- Rust `str::parse::<u32>` on a date component: digits only, else failure. -/
def parseNat? (s : List Char) : Option Nat :=
  if s.isEmpty then none
  else if s.all (fun c => c.isDigit) then
    some (s.foldl (fun n c => n * 10 + (c.toNat - 48)) 0)
  else none

/-- Zero-padded numeral of width `w`, modelling Rust format `{:0w}`. -/
def padNat (w n : Nat) : List Char :=
  let s := (Nat.repr n).toList
  List.replicate (w - s.length) '0' ++ s

/-- `SRSScheduler::add_days_to_date` from scheduler.rs: split on dashes
(echoing the input back unchanged unless there are exactly three parts),
parse components with per-component defaults 2024 / 1 / 1, add the days with
the calendar rollover loop, and re-format zero-padded. -/
def add_days_to_date (date : String) (days : Nat) : String :=
  let parts := date.toList.splitOn ('-')
  if parts.length ≠ 3 then date
  else
    let year := (parseNat? (parts.getD 0 [])).getD 2024
    let month := (parseNat? (parts.getD 1 [])).getD 1
    let day := (parseNat? (parts.getD 2 [])).getD 1
    let r := rolloverLoop year month (day + days)
    String.mk (padNat 4 r.1 ++ ('-') :: padNat 2 r.2.1 ++ ('-') :: padNat 2 r.2.2)

/-! ## SRS card (card.rs) -/

/-- `MasteryLevel` from card.rs. -/
inductive MasteryLevel where
  | New
  | Learning
  | Familiar
  | Proficient
  | Mastered
deriving DecidableEq, Repr

/-- `SRSCard` from card.rs. `ease_factor` is modelled as `ℚ`. -/
structure SRSCard where
  word_id : String
  source_word : String
  target_word : String
  language_pair : String
  level : String
  lesson_id : String
  pronunciation : Option String
  example_sentence : Option String
  ease_factor : ℚ
  interval : Nat
  repetitions : Nat
  next_review_date : String
  last_reviewed : Option String
  total_reviews : Nat
  correct_reviews : Nat
  last_quality : Option Nat
  created_at : String
deriving Repr

/-- `SRSCard::is_due`: lexicographic string comparison. -/
def SRSCard.is_due (c : SRSCard) (current_date : String) : Bool :=
  decide (c.next_review_date ≤ current_date)

/-- `SRSCard::accuracy_rate`: 0 when never reviewed, else percentage. -/
def SRSCard.accuracy_rate (c : SRSCard) : ℚ :=
  if c.total_reviews = 0 then 0
  else ((c.correct_reviews : ℚ) / (c.total_reviews : ℚ)) * 100

/-- `SRSCard::mastery_level` from card.rs, translated arm by arm from the
Rust `match`; a guard that fails falls through to the next arm, so each
branch condition conjoins the range pattern with its guard. -/
def SRSCard.mastery_level (c : SRSCard) : MasteryLevel :=
  if c.repetitions = 0 then MasteryLevel.New
  else if 1 ≤ c.repetitions ∧ c.repetitions ≤ 2 then MasteryLevel.Learning
  else if 3 ≤ c.repetitions ∧ c.repetitions ≤ 5 ∧ 2 ≤ c.ease_factor then MasteryLevel.Familiar
  else if 6 ≤ c.repetitions ∧ c.repetitions ≤ 10 ∧ 11/5 ≤ c.ease_factor then MasteryLevel.Proficient
  else if 10 < c.repetitions ∧ 12/5 ≤ c.ease_factor then MasteryLevel.Mastered
  else MasteryLevel.Learning

/-! ## SM-2 scheduler (scheduler.rs) -/

/-- `SRSUpdate` from scheduler.rs. -/
structure SRSUpdate where
  new_ease_factor : ℚ
  new_interval : Nat
  new_repetitions : Nat
  next_review_date : String
  quality : Nat
  was_successful : Bool
deriving Repr

/-- Rust `f32::clamp lo hi` (for `lo ≤ hi`): `min (max x lo) hi`. -/
def clampQ (x lo hi : ℚ) : ℚ := min (max x lo) hi

/-- Rust `f32::round()` followed by `as u32` on a non-negative product:
round half away from zero, truncating negatives to 0. -/
def roundToU32 (x : ℚ) : Nat :=
  if 0 ≤ x then (⌊x + 1/2⌋).toNat else 0

/-- `SRSScheduler::calculate_next_review` from scheduler.rs. -/
def calculate_next_review (card : SRSCard) (quality : Nat) (current_date : String) :
    SRSUpdate :=
  let quality := min quality 5
  let was_successful := 3 ≤ quality
  let r : ℚ × Nat × Nat :=
    if was_successful then
      let new_reps := card.repetitions + 1
      let new_interval :=
        match new_reps with
        | 1 => 1
        | 2 => 6
        | _ => roundToU32 ((card.interval : ℚ) * card.ease_factor)
      let new_ease := card.ease_factor
        + (1/10 - ((5 - quality : Nat) : ℚ) * (8/100 + ((5 - quality : Nat) : ℚ) * (2/100)))
      let new_ease := clampQ new_ease (13/10) (5/2)
      (new_ease, new_interval, new_reps)
    else
      let new_ease := max (card.ease_factor - 2/10) (13/10)
      (new_ease, 1, 0)
  { new_ease_factor := r.1
    new_interval := r.2.1
    new_repetitions := r.2.2
    next_review_date := add_days_to_date current_date r.2.1
    quality := quality
    was_successful := decide was_successful }

/-- `SRSScheduler::apply_update` from scheduler.rs, as a functional update. -/
def apply_update (card : SRSCard) (update : SRSUpdate) (current_date : String) : SRSCard :=
  { card with
    ease_factor := update.new_ease_factor
    interval := update.new_interval
    repetitions := update.new_repetitions
    next_review_date := update.next_review_date
    last_reviewed := some current_date
    last_quality := some update.quality
    total_reviews := card.total_reviews + 1
    correct_reviews := card.correct_reviews + (if update.was_successful then 1 else 0) }

/-! ## Collection statistics (card.rs, `SRSCardStats`) -/

/-- `SRSCardStats` from card.rs. -/
structure SRSCardStats where
  total_cards : Nat
  due_today : Nat
  new_cards : Nat
  learning_cards : Nat
  familiar_cards : Nat
  proficient_cards : Nat
  mastered_cards : Nat
  average_ease_factor : ℚ
  average_accuracy : ℚ
deriving Repr, DecidableEq

/-- `SRSCardStats::from_cards` from card.rs: early all-zero return on the
empty collection, otherwise one filter per mastery bucket, mean ease over
all cards, and mean accuracy over the cards with at least one review. -/
def from_cards (cards : List SRSCard) (current_date : String) : SRSCardStats :=
  if cards.length = 0 then
    { total_cards := 0, due_today := 0, new_cards := 0, learning_cards := 0
      familiar_cards := 0, proficient_cards := 0, mastered_cards := 0
      average_ease_factor := 0, average_accuracy := 0 }
  else
    let due_today := (cards.filter (fun c => c.is_due current_date)).length
    let new_cards :=
      (cards.filter (fun c => decide (c.mastery_level = MasteryLevel.New))).length
    let learning_cards :=
      (cards.filter (fun c => decide (c.mastery_level = MasteryLevel.Learning))).length
    let familiar_cards :=
      (cards.filter (fun c => decide (c.mastery_level = MasteryLevel.Familiar))).length
    let proficient_cards :=
      (cards.filter (fun c => decide (c.mastery_level = MasteryLevel.Proficient))).length
    let mastered_cards :=
      (cards.filter (fun c => decide (c.mastery_level = MasteryLevel.Mastered))).length
    let total_ease : ℚ := (cards.map (fun c => c.ease_factor)).sum
    let average_ease_factor := total_ease / (cards.length : ℚ)
    let cards_with_reviews := cards.filter (fun c => decide (0 < c.total_reviews))
    let average_accuracy : ℚ :=
      if cards_with_reviews.length = 0 then 0
      else (cards_with_reviews.map (fun c => c.accuracy_rate)).sum
        / (cards_with_reviews.length : ℚ)
    { total_cards := cards.length, due_today := due_today, new_cards := new_cards
      learning_cards := learning_cards, familiar_cards := familiar_cards
      proficient_cards := proficient_cards, mastered_cards := mastered_cards
      average_ease_factor := average_ease_factor, average_accuracy := average_accuracy }

/-! ## Vocabulary bank (vocabulary.rs) -/

/-- `VocabularyCategory` from vocabulary.rs. -/
inductive VocabularyCategory where
  | Noun
  | Verb
  | Adjective
  | Adverb
  | Pronoun
  | Preposition
  | Conjunction
  | Interjection
  | Phrase
  | Expression
  | Idiom
  | Grammar
  | Other
deriving DecidableEq, Repr

/-- `VocabularyItem` from vocabulary.rs.  The searched fields (`source`,
`target`, `tags`) are kept as character lists so that the case-insensitive
substring search can be stated directly. -/
structure VocabularyItem where
  id : String
  source : List Char
  target : List Char
  pronunciation : Option String
  example_sentence : Option String
  example_translation : Option String
  lesson_id : String
  level : String
  language_pair : String
  category : VocabularyCategory
  notes : Option String
  tags : List (List Char)
  in_srs : Bool
  added_at : String
deriving DecidableEq, Repr

/-- First binding of a key in an association list, modelling `HashMap::get`. -/
def mapFind? {α β : Type} [DecidableEq α] : List (α × β) → α → Option β
  | [], _ => none
  | p :: rest, k => if p.1 = k then some p.2 else mapFind? rest k

/-- Overwriting insertion into an association list, modelling
`HashMap::insert` (the association list keeps at most one binding per key). -/
def mapSet {α β : Type} [DecidableEq α] (m : List (α × β)) (k : α) (v : β) :
    List (α × β) :=
  (k, v) :: m.filter (fun p => decide (p.1 ≠ k))

/-- `VocabularyBank` from vocabulary.rs: primary map plus four indices. -/
structure VocabularyBank where
  items : List (String × VocabularyItem)
  by_level : List (String × List String)
  by_lesson : List (String × List String)
  by_language_pair : List (String × List String)
  by_category : List (VocabularyCategory × List String)
deriving DecidableEq, Repr

/-- `VocabularyBank::new`. -/
def emptyBank : VocabularyBank :=
  { items := [], by_level := [], by_lesson := [], by_language_pair := [], by_category := [] }

/-- The `entry(key).or_default().push(id)` pattern used by
`VocabularyBank::add` on each index. -/
def indexPush {α : Type} [DecidableEq α] (m : List (α × List String)) (k : α)
    (id : String) : List (α × List String) :=
  mapSet m k (((mapFind? m k).getD []) ++ [id])

/-- The `if let Some(ids) = index.get_mut(key) { ids.retain(|i| i != id) }`
pattern used by `VocabularyBank::remove` on each index. -/
def indexRetain {α : Type} [DecidableEq α] (m : List (α × List String)) (k : α)
    (id : String) : List (α × List String) :=
  m.map (fun p => if p.1 = k then (p.1, p.2.filter (fun i => decide (i ≠ id))) else p)

/-- `VocabularyBank::add` from vocabulary.rs: insert into the primary map and
push the id onto all four indices under the item's own keys. -/
def VocabularyBank.add (b : VocabularyBank) (item : VocabularyItem) : VocabularyBank :=
  { items := mapSet b.items item.id item
    by_level := indexPush b.by_level item.level item.id
    by_lesson := indexPush b.by_lesson item.lesson_id item.id
    by_language_pair := indexPush b.by_language_pair item.language_pair item.id
    by_category := indexPush b.by_category item.category item.id }

/-- `VocabularyBank::remove` from vocabulary.rs: on a hit, drop the binding
from the primary map and retain-out the id from the four indices under the
removed item's own keys; on a miss, return `None` and leave everything as is. -/
def VocabularyBank.remove (b : VocabularyBank) (id : String) :
    Option VocabularyItem × VocabularyBank :=
  match mapFind? b.items id with
  | none => (none, b)
  | some item =>
    (some item,
      { items := b.items.filter (fun p => decide (p.1 ≠ id))
        by_level := indexRetain b.by_level item.level id
        by_lesson := indexRetain b.by_lesson item.lesson_id id
        by_language_pair := indexRetain b.by_language_pair item.language_pair id
        by_category := indexRetain b.by_category item.category id })

/-- Lowercasing used by `matches_query` and the search ranking
(`str::to_lowercase`, restricted to the per-character case mapping). -/
def toLowerStr (s : List Char) : List Char := s.map Char.toLower

/-- Whether the first list is an initial segment of the second. -/
def isInitialSegment : List Char → List Char → Bool
  | [], _ => true
  | _ :: _, [] => false
  | a :: as, b :: bs => a == b && isInitialSegment as bs

/-- Substring containment, modelling Rust `str::contains`: some suffix of the
haystack starts with the needle. -/
def containsSub : List Char → List Char → Bool
  | hay, needle =>
    isInitialSegment needle hay ||
      match hay with
      | [] => false
      | _ :: t => containsSub t needle

/-- `VocabularyItem::matches_query` from vocabulary.rs: case-insensitive
substring match against source, target, or any tag. -/
def VocabularyItem.matches_query (it : VocabularyItem) (query : List Char) : Bool :=
  let ql := toLowerStr query
  containsSub (toLowerStr it.source) ql || containsSub (toLowerStr it.target) ql ||
    it.tags.any (fun t => containsSub (toLowerStr t) ql)

/-- The exactness key of the search ranking comparator in
`VocabularyBank::search`: case-insensitive full equality of the query with
the source or the target. -/
def isExactMatch (it : VocabularyItem) (ql : List Char) : Bool :=
  toLowerStr it.source == ql || toLowerStr it.target == ql

/-- `VocabularyBank::search` from vocabulary.rs: filter by `matches_query`,
rank exact matches first, truncate to the limit when one is given.  Rust
sorts with a stable `sort_by` whose comparator only compares the boolean
exactness key; a stable sort on a two-valued key is exactly the partition
written here. -/
def VocabularyBank.search (b : VocabularyBank) (query : List Char)
    (limit : Option Nat) : List VocabularyItem :=
  let results := (b.items.map Prod.snd).filter (fun it => it.matches_query query)
  let ql := toLowerStr query
  let sorted := results.filter (fun it => isExactMatch it ql) ++
    results.filter (fun it => !isExactMatch it ql)
  match limit with
  | some l => sorted.take l
  | none => sorted

/-! ## Index consistency (spec §3, "index consistency") -/

/-- Every id stored under any key of one index resolves in the primary map. -/
abbrev indexOk (items : List (String × VocabularyItem))
    (m : List (String × List String)) : Prop :=
  ∀ p ∈ m, ∀ i ∈ p.2, (mapFind? items i).isSome = true

/-- Same as `indexOk` for the category index. -/
abbrev indexOkCat (items : List (String × VocabularyItem))
    (m : List (VocabularyCategory × List String)) : Prop :=
  ∀ p ∈ m, ∀ i ∈ p.2, (mapFind? items i).isSome = true

/-- Every stored item is listed in each index under its own key. -/
abbrev itemIndexed (b : VocabularyBank) (p : String × VocabularyItem) : Prop :=
  p.1 ∈ (mapFind? b.by_level p.2.level).getD [] ∧
  p.1 ∈ (mapFind? b.by_lesson p.2.lesson_id).getD [] ∧
  p.1 ∈ (mapFind? b.by_language_pair p.2.language_pair).getD [] ∧
  p.1 ∈ (mapFind? b.by_category p.2.category).getD []

/-- Index consistency as the spec states it: no id dangles in an index, and
every item is indexed under its own four keys. -/
abbrev indexConsistent (b : VocabularyBank) : Prop :=
  indexOk b.items b.by_level ∧ indexOk b.items b.by_lesson ∧
  indexOk b.items b.by_language_pair ∧ indexOkCat b.items b.by_category ∧
  ∀ p ∈ b.items, itemIndexed b p

/-! ## Spec-side definitions (transcribed from spec.md, for refinement) -/

/-- Modelled from the spec §4.2 step 3: the successful-review interval rule,
stated on the incremented repetition count. -/
def spec_new_interval (card : SRSCard) (new_repetitions : Nat) : Nat :=
  if new_repetitions = 1 then 1
  else if new_repetitions = 2 then 6
  else roundToU32 ((card.interval : ℚ) * card.ease_factor)

/-- Modelled from the spec §4.2 step 3: the successful-review ease update
`clamp(ease + (0.1 - (5-q)*(0.08 + (5-q)*0.02)), 1.3, 2.5)`. -/
def spec_new_ease_success (card : SRSCard) (q : Nat) : ℚ :=
  clampQ (card.ease_factor
      + (1/10 - ((5 - q : Nat) : ℚ) * (8/100 + ((5 - q : Nat) : ℚ) * (2/100))))
    (13/10) (5/2)

/-! ## Concrete sample values used in witnesses and counterexamples -/

/-- A freshly created card as `SRSCard::new` builds it (card.rs). -/
def sampleCard : SRSCard :=
  { word_id := "vocab_001", source_word := "hello", target_word := "ola"
    language_pair := "en_to_pt_br", level := "A1", lesson_id := "greetings"
    pronunciation := none, example_sentence := none
    ease_factor := 5/2, interval := 0, repetitions := 0
    next_review_date := "2024-01-15", last_reviewed := none
    total_reviews := 0, correct_reviews := 0, last_quality := none
    created_at := "2024-01-15" }

/-- A mid-life card: seven consecutive successes, ease 2.3. -/
def matureCard : SRSCard :=
  { sampleCard with
    repetitions := 7
    interval := 30
    ease_factor := 23/10
    total_reviews := 9
    correct_reviews := 7 }

/-- A vocabulary item as `VocabularyItem::new` builds it (vocabulary.rs). -/
def sampleItem : VocabularyItem :=
  { id := "w1", source := ['h', 'e', 'l', 'l', 'o']
    target := ['o', 'l', 'a'], pronunciation := none, example_sentence := none
    example_translation := none, lesson_id := "greetings", level := "A1"
    language_pair := "en_pt", category := VocabularyCategory.Phrase
    notes := none, tags := [], in_srs := false, added_at := "2024-01-15" }

/-- The same id re-added with a different level, as an overwriting update. -/
def sampleItemRelevel : VocabularyItem := { sampleItem with level := "B2" }

/-- The store after adding `sampleItem` and then re-adding the same id with
level changed: the failing input of the removal claim. -/
def staleBank : VocabularyBank := (emptyBank.add sampleItem).add sampleItemRelevel

/-! ## Helper lemmas -/

theorem daysInMonth_pos (y m : Nat) : 0 < daysInMonth y m := by
  unfold daysInMonth
  repeat' split
  all_goals norm_num

theorem monthsBefore_one (y : Nat) : monthsBefore y 1 = 0 := rfl

theorem monthsBefore_succ (y m : Nat) (h : 1 ≤ m) :
    monthsBefore y (m + 1) = monthsBefore y m + daysInMonth y m := by
  obtain ⟨k, rfl⟩ : ∃ k, m = k + 1 := ⟨m - 1, by omega⟩
  show ((List.range (k + 1)).map (fun j => daysInMonth y (j + 1))).sum = _
  rw [List.range_succ, List.map_append, List.sum_append]
  simp [monthsBefore]

theorem monthsBefore_year (y : Nat) :
    monthsBefore y 12 + daysInMonth y 12 = daysInYear y := by
  cases h : isLeap y <;>
    simp [monthsBefore, daysInMonth, daysInYear, h, List.range_succ]

/-- The rollover loop, run with enough fuel on an in-range month, lands on a
valid calendar day of a valid month and preserves the absolute day number. -/
theorem rolloverGo_correct (fuel : Nat) :
    ∀ y m d, d ≤ fuel → 1 ≤ m → m ≤ 12 → 1 ≤ d →
      1 ≤ (rolloverGo fuel y m d).2.1 ∧ (rolloverGo fuel y m d).2.1 ≤ 12 ∧
      1 ≤ (rolloverGo fuel y m d).2.2 ∧
      (rolloverGo fuel y m d).2.2 ≤
        daysInMonth (rolloverGo fuel y m d).1 (rolloverGo fuel y m d).2.1 ∧
      absDay (rolloverGo fuel y m d) = absDay (y, m, d) := by
  induction fuel with
  | zero => intro y m d h1 _ _ h4; omega
  | succ f ih =>
    intro y m d hf hm1 hm2 hd
    by_cases hlt : daysInMonth y m < d
    · have hdp := daysInMonth_pos y m
      by_cases hm : 12 < m + 1
      · have hm12 : m = 12 := by omega
        subst hm12
        simp only [rolloverGo, if_pos hlt, if_pos hm]
        have hrec := ih (y + 1) 1 (d - daysInMonth y 12) (by omega) (by norm_num)
          (by norm_num) (by omega)
        refine ⟨hrec.1, hrec.2.1, hrec.2.2.1, hrec.2.2.2.1, ?_⟩
        rw [hrec.2.2.2.2]
        have hy := monthsBefore_year y
        simp only [absDay, yearsBefore, monthsBefore_one]
        omega
      · simp only [rolloverGo, if_pos hlt, if_neg hm]
        have hrec := ih y (m + 1) (d - daysInMonth y m) (by omega) (by omega)
          (by omega) (by omega)
        refine ⟨hrec.1, hrec.2.1, hrec.2.2.1, hrec.2.2.2.1, ?_⟩
        rw [hrec.2.2.2.2]
        have hms := monthsBefore_succ y m hm1
        simp only [absDay]
        omega
    · simp only [rolloverGo, if_neg hlt]
      refine ⟨hm1, hm2, hd, by omega, by simp⟩

/-! ## Claim theorems -/

/-- C4: on every well-formed date (month in 1..12, day in range for the
month) and every non-negative day count, the date-addition routine is
calendar-correct: the result is again a valid calendar date and its absolute
day number (via the 28/29/30/31 table with the Gregorian leap rule) is the
input's plus the day count; and on the spec's boundary examples the string
routine yields the stated zero-padded dates. -/
theorem add_days_calendar_correct :
    (∀ y m d n, 1 ≤ m → m ≤ 12 → 1 ≤ d → d ≤ daysInMonth y m →
      1 ≤ (rolloverLoop y m (d + n)).2.1 ∧ (rolloverLoop y m (d + n)).2.1 ≤ 12 ∧
      1 ≤ (rolloverLoop y m (d + n)).2.2 ∧
      (rolloverLoop y m (d + n)).2.2 ≤
        daysInMonth (rolloverLoop y m (d + n)).1 (rolloverLoop y m (d + n)).2.1 ∧
      absDay (rolloverLoop y m (d + n)) = absDay (y, m, d) + n) ∧
    add_days_to_date ("2024-01-31") 1 = "2024-02-01" ∧
    add_days_to_date ("2024-02-28") 1 = "2024-02-29" ∧
    add_days_to_date ("2024-02-29") 1 = "2024-03-01" ∧
    add_days_to_date ("2023-02-28") 1 = "2023-03-01" := by
  refine ⟨?_, by decide, by decide, by decide, by decide⟩
  intro y m d n hm1 hm2 hd1 hd2
  have h := rolloverGo_correct (d + n) y m (d + n) (le_refl _) hm1 hm2 (by omega)
  refine ⟨h.1, h.2.1, h.2.2.1, h.2.2.2.1, ?_⟩
  rw [show rolloverLoop y m (d + n) = rolloverGo (d + n) y m (d + n) from rfl, h.2.2.2.2]
  simp only [absDay]
  omega

/-- Witness for C4 at the concrete input 2024-01-31 plus one day. -/
theorem add_days_calendar_correct_witness :
    (1 ≤ 1 ∧ (1 : Nat) ≤ 12 ∧ 1 ≤ 31 ∧ 31 ≤ daysInMonth 2024 1) ∧
    absDay (rolloverLoop 2024 1 (31 + 1)) = absDay (2024, 1, 31) + 1 :=
  ⟨by decide,
    (add_days_calendar_correct.1 2024 1 31 1 (by decide) (by decide) (by decide)
      (by decide)).2.2.2.2⟩

/-- C9 (counterexample): the routine has no fixed default output on
malformed dates: two different malformed inputs are echoed back as two
different results, so the fallback varies with the input. -/
theorem add_days_malformed_not_fixed :
    add_days_to_date ("garbage") 1 = "garbage" ∧
    add_days_to_date ("junk") 1 = "junk" ∧
    add_days_to_date ("garbage") 1 ≠ add_days_to_date ("junk") 1 := by
  exact ⟨by decide, by decide, by decide⟩

/-- C9 (amended): the routine is total on all strings and never fails; a
string that does not split into exactly three dash-separated parts is
returned unchanged, and a three-part string with non-numeric components
falls back to the per-component defaults year 2024, month 1, day 1. -/
theorem add_days_malformed_total :
    (∀ s n, (s.toList.splitOn ('-')).length ≠ 3 → add_days_to_date s n = s) ∧
    (∀ n, add_days_to_date ("x-y-z") n = add_days_to_date ("2024-1-1") n) := by
  constructor
  · intro s n h
    simp only [add_days_to_date]
    split
    · rfl
    · rename_i hcond
      exact absurd h hcond
  · intro n
    rfl

/-- Witness for C9's amended statement on a concrete malformed input. -/
theorem add_days_malformed_total_witness :
    (("nodash".toList.splitOn ('-')).length ≠ 3) ∧
    add_days_to_date ("nodash") 7 = "nodash" :=
  ⟨by decide, add_days_malformed_total.1 ("nodash") 7 (by decide)⟩

/-- C1: for every card, quality (clamped to at most 5) and date,
`calculate_next_review` produces exactly the SM-2 outputs the spec defines:
on success (clamped quality at least 3) the incremented repetition count,
the 1 / 6 / round(previous interval times ease) interval rule and the
clamped quadratic ease update; on failure (clamped quality at most 2) the
ease drop by 0.2 floored at 1.3, interval 1 and repetitions 0. -/
theorem calculate_next_review_matches_spec (card : SRSCard) (q : Nat) (d : String) :
    (3 ≤ min q 5 →
      (calculate_next_review card q d).new_repetitions = card.repetitions + 1 ∧
      (calculate_next_review card q d).new_interval =
        spec_new_interval card (card.repetitions + 1) ∧
      (calculate_next_review card q d).new_ease_factor =
        spec_new_ease_success card (min q 5)) ∧
    (min q 5 ≤ 2 →
      (calculate_next_review card q d).new_ease_factor =
        max (card.ease_factor - 2/10) (13/10) ∧
      (calculate_next_review card q d).new_interval = 1 ∧
      (calculate_next_review card q d).new_repetitions = 0) := by
  constructor
  · intro hq
    simp only [calculate_next_review, if_pos hq]
    refine ⟨trivial, ?_, rfl⟩
    rcases card.repetitions with _ | _ | k <;>
      simp [spec_new_interval]
  · intro hq
    have hq3 : ¬ 3 ≤ min q 5 := by omega
    simp only [calculate_next_review, if_neg hq3]
    exact ⟨trivial, trivial, trivial⟩

/-- Witness for C1 on a fresh card, one successful and one failed review. -/
theorem calculate_next_review_matches_spec_witness :
    (3 ≤ min 4 5 ∧
      (calculate_next_review sampleCard 4 ("2024-01-15")).new_repetitions =
        sampleCard.repetitions + 1) ∧
    (min 1 5 ≤ 2 ∧ (calculate_next_review sampleCard 1 ("2024-01-15")).new_interval = 1) :=
  ⟨⟨by decide,
      ((calculate_next_review_matches_spec sampleCard 4 ("2024-01-15")).1 (by decide)).1⟩,
    ⟨by decide,
      ((calculate_next_review_matches_spec sampleCard 1 ("2024-01-15")).2 (by decide)).2.1⟩⟩

/-- C2: applying the update computed for any quality and date to a card
whose ease factor satisfies the invariant keeps the ease factor inside the
closed interval from 1.3 to 2.5. -/
theorem apply_update_ease_in_range (card : SRSCard) (q : Nat) (d cd : String)
    (hlo : 13/10 ≤ card.ease_factor) (hhi : card.ease_factor ≤ 5/2) :
    13/10 ≤ (apply_update card (calculate_next_review card q d) cd).ease_factor ∧
    (apply_update card (calculate_next_review card q d) cd).ease_factor ≤ 5/2 := by
  have heq : (apply_update card (calculate_next_review card q d) cd).ease_factor
      = (calculate_next_review card q d).new_ease_factor := rfl
  rw [heq]
  by_cases hq : 3 ≤ min q 5
  · simp only [calculate_next_review, if_pos hq, clampQ]
    constructor
    · exact le_min (le_max_right _ _) (by norm_num)
    · exact min_le_right _ _
  · simp only [calculate_next_review, if_neg hq]
    constructor
    · exact le_max_right _ _
    · exact max_le (by linarith) (by norm_num)

/-- Witness for C2 on a fresh card and a failed review. -/
theorem apply_update_ease_in_range_witness :
    (13/10 ≤ sampleCard.ease_factor ∧ sampleCard.ease_factor ≤ 5/2) ∧
    (13/10 ≤ (apply_update sampleCard
        (calculate_next_review sampleCard 2 ("2024-01-15")) ("2024-01-15")).ease_factor ∧
      (apply_update sampleCard
        (calculate_next_review sampleCard 2 ("2024-01-15")) ("2024-01-15")).ease_factor ≤ 5/2) :=
  ⟨⟨by norm_num [sampleCard], by norm_num [sampleCard]⟩,
    apply_update_ease_in_range sampleCard 2 ("2024-01-15") ("2024-01-15")
      (by norm_num [sampleCard]) (by norm_num [sampleCard])⟩

/-- C3: `mastery_level` computes exactly the spec's tiers from repetitions
and ease factor, including the fallback of every unlisted combination to
Learning. -/
theorem mastery_level_classification (c : SRSCard) :
    (c.repetitions = 0 → c.mastery_level = MasteryLevel.New) ∧
    (1 ≤ c.repetitions ∧ c.repetitions ≤ 2 → c.mastery_level = MasteryLevel.Learning) ∧
    (3 ≤ c.repetitions ∧ c.repetitions ≤ 5 ∧ 2 ≤ c.ease_factor →
      c.mastery_level = MasteryLevel.Familiar) ∧
    (6 ≤ c.repetitions ∧ c.repetitions ≤ 10 ∧ 11/5 ≤ c.ease_factor →
      c.mastery_level = MasteryLevel.Proficient) ∧
    (10 < c.repetitions ∧ 12/5 ≤ c.ease_factor →
      c.mastery_level = MasteryLevel.Mastered) ∧
    (¬ c.repetitions = 0 → ¬ (1 ≤ c.repetitions ∧ c.repetitions ≤ 2) →
      ¬ (3 ≤ c.repetitions ∧ c.repetitions ≤ 5 ∧ 2 ≤ c.ease_factor) →
      ¬ (6 ≤ c.repetitions ∧ c.repetitions ≤ 10 ∧ 11/5 ≤ c.ease_factor) →
      ¬ (10 < c.repetitions ∧ 12/5 ≤ c.ease_factor) →
      c.mastery_level = MasteryLevel.Learning) := by
  refine ⟨?_, ?_, ?_, ?_, ?_, ?_⟩
  · intro h
    simp [SRSCard.mastery_level, h]
  · rintro ⟨h1, h2⟩
    have h0 : ¬ c.repetitions = 0 := by omega
    simp [SRSCard.mastery_level, h0, h1, h2]
  · rintro ⟨h1, h2, h3⟩
    have h0 : ¬ c.repetitions = 0 := by omega
    have hn2 : ¬ c.repetitions ≤ 2 := by omega
    simp [SRSCard.mastery_level, h0, hn2, h1, h2, h3]
  · rintro ⟨h1, h2, h3⟩
    have h0 : ¬ c.repetitions = 0 := by omega
    have hn2 : ¬ c.repetitions ≤ 2 := by omega
    have hn5 : ¬ c.repetitions ≤ 5 := by omega
    simp [SRSCard.mastery_level, h0, hn2, hn5, h1, h2, h3]
  · rintro ⟨h1, h2⟩
    have h0 : ¬ c.repetitions = 0 := by omega
    have hn2 : ¬ c.repetitions ≤ 2 := by omega
    have hn5 : ¬ c.repetitions ≤ 5 := by omega
    have hn10 : ¬ c.repetitions ≤ 10 := by omega
    simp [SRSCard.mastery_level, h0, hn2, hn5, hn10, h1, h2]
  · intro h0 h1 h2 h3 h4
    simp only [SRSCard.mastery_level, if_neg h0, if_neg h1, if_neg h2, if_neg h3, if_neg h4]

/-- Witness for C3 at the spec's example: seven repetitions with ease 2.3 is
Proficient, while seven repetitions with ease 2.0 falls back to Learning. -/
theorem mastery_level_classification_witness :
    ((6 ≤ matureCard.repetitions ∧ matureCard.repetitions ≤ 10 ∧
        11/5 ≤ matureCard.ease_factor) ∧
      matureCard.mastery_level = MasteryLevel.Proficient) ∧
    (({ matureCard with ease_factor := 2 } : SRSCard).mastery_level =
      MasteryLevel.Learning) :=
  ⟨⟨by refine ⟨by norm_num [matureCard, sampleCard], by norm_num [matureCard, sampleCard],
        by norm_num [matureCard, sampleCard]⟩,
      (mastery_level_classification matureCard).2.2.2.1
        ⟨by norm_num [matureCard, sampleCard], by norm_num [matureCard, sampleCard],
          by norm_num [matureCard, sampleCard]⟩⟩,
    (mastery_level_classification ({ matureCard with ease_factor := 2 } : SRSCard)).2.2.2.2.2
      (by norm_num [matureCard, sampleCard]) (by norm_num [matureCard, sampleCard])
      (by norm_num [matureCard, sampleCard]) (by norm_num [matureCard, sampleCard])
      (by norm_num [matureCard, sampleCard])⟩

/-- C5: a successful review (quality at least 3, unchanged by the clamp)
always increments repetitions by exactly 1 and never produces an interval
below 1, on any card satisfying the scheduler's own state invariant (ease at
least 1.3, interval at least 1 once two successes have accumulated); the
first success yields interval 1 and the second yields interval 6, for every
such quality. -/
theorem successful_review_advances (card : SRSCard) (q : Nat) (d : String)
    (hq : 3 ≤ q) (hef : 13/10 ≤ card.ease_factor)
    (hint : 2 ≤ card.repetitions → 1 ≤ card.interval) :
    (calculate_next_review card q d).new_repetitions = card.repetitions + 1 ∧
    1 ≤ (calculate_next_review card q d).new_interval ∧
    (card.repetitions = 0 → (calculate_next_review card q d).new_interval = 1) ∧
    (card.repetitions = 1 → (calculate_next_review card q d).new_interval = 6) := by
  have hq5 : 3 ≤ min q 5 := by omega
  simp only [calculate_next_review, if_pos hq5]
  rcases hr : card.repetitions with _ | n
  · exact ⟨trivial, by simp, fun _ => rfl, by omega⟩
  rcases n with _ | k
  · exact ⟨trivial, by simp, by omega, fun _ => rfl⟩
  · refine ⟨trivial, ?_, by omega, by omega⟩
    have hi : 1 ≤ card.interval := hint (by omega)
    show 1 ≤ roundToU32 ((card.interval : ℚ) * card.ease_factor)
    have hx : (13/10 : ℚ) ≤ (card.interval : ℚ) * card.ease_factor := by
      have h1 : (1 : ℚ) ≤ (card.interval : ℚ) := by exact_mod_cast hi
      nlinarith
    simp only [roundToU32, if_pos (by linarith : (0:ℚ) ≤ (card.interval : ℚ) * card.ease_factor)]
    have hfl : (1 : ℤ) ≤ ⌊(card.interval : ℚ) * card.ease_factor + 1/2⌋ := by
      apply Int.le_floor.mpr
      push_cast
      linarith
    omega

/-- Witness for C5 on a fresh card with quality 5. -/
theorem successful_review_advances_witness :
    (3 ≤ 5 ∧ 13/10 ≤ sampleCard.ease_factor ∧
      (2 ≤ sampleCard.repetitions → 1 ≤ sampleCard.interval)) ∧
    ((calculate_next_review sampleCard 5 ("2024-01-15")).new_repetitions =
        sampleCard.repetitions + 1 ∧
      1 ≤ (calculate_next_review sampleCard 5 ("2024-01-15")).new_interval ∧
      (sampleCard.repetitions = 0 →
        (calculate_next_review sampleCard 5 ("2024-01-15")).new_interval = 1) ∧
      (sampleCard.repetitions = 1 →
        (calculate_next_review sampleCard 5 ("2024-01-15")).new_interval = 6)) :=
  ⟨⟨by norm_num, by norm_num [sampleCard], by intro h; simp [sampleCard] at h⟩,
    successful_review_advances sampleCard 5 ("2024-01-15") (by norm_num)
      (by norm_num [sampleCard]) (by intro h; simp [sampleCard] at h)⟩

/-- Every card lands in exactly one mastery bucket, so the five per-bucket
filters partition the collection. -/
theorem mastery_counts_partition (cards : List SRSCard) :
    (cards.filter (fun c => decide (c.mastery_level = MasteryLevel.New))).length +
    (cards.filter (fun c => decide (c.mastery_level = MasteryLevel.Learning))).length +
    (cards.filter (fun c => decide (c.mastery_level = MasteryLevel.Familiar))).length +
    (cards.filter (fun c => decide (c.mastery_level = MasteryLevel.Proficient))).length +
    (cards.filter (fun c => decide (c.mastery_level = MasteryLevel.Mastered))).length
      = cards.length := by
  induction cards with
  | nil => rfl
  | cons c rest ih =>
    rcases h : c.mastery_level <;> simp [List.filter_cons, h] <;> omega

/-- C7: `from_cards` reports a total equal to the card count, five mastery
bucket counts that sum to that total, an average accuracy that is the mean
of `accuracy_rate` over exactly the cards with at least one review (0 when
there are none), and on the empty collection the all-zero record with no
division by zero. -/
theorem from_cards_stats (cards : List SRSCard) (d : String) :
    (from_cards cards d).total_cards = cards.length ∧
    (from_cards cards d).new_cards + (from_cards cards d).learning_cards +
      (from_cards cards d).familiar_cards + (from_cards cards d).proficient_cards +
      (from_cards cards d).mastered_cards = (from_cards cards d).total_cards ∧
    (from_cards cards d).average_accuracy =
      (if (cards.filter (fun c => decide (0 < c.total_reviews))).length = 0 then 0
       else ((cards.filter (fun c => decide (0 < c.total_reviews))).map
          (fun c => c.accuracy_rate)).sum
        / ((cards.filter (fun c => decide (0 < c.total_reviews))).length : ℚ)) ∧
    from_cards [] d =
      { total_cards := 0, due_today := 0, new_cards := 0, learning_cards := 0
        familiar_cards := 0, proficient_cards := 0, mastered_cards := 0
        average_ease_factor := 0, average_accuracy := 0 } := by
  by_cases h : cards.length = 0
  · have hnil : cards = [] := List.length_eq_zero.mp h
    subst hnil
    exact ⟨rfl, rfl, rfl, rfl⟩
  · refine ⟨?_, ?_, ?_, rfl⟩
    · simp only [from_cards, if_neg h]
    · simp only [from_cards, if_neg h]
      exact mastery_counts_partition cards
    · simp only [from_cards, if_neg h]

/-- C6 (code behaviour at the failing input): a store built by adding an id
and then re-adding the same id under a different level satisfies the spec's
index-consistency precondition, yet after `remove` of that id the id is gone
from the primary map but still listed in the level index under the old key —
a dangling index entry, contradicting the claim. -/
theorem remove_leaves_stale_index_entry :
    indexConsistent staleBank ∧
    mapFind? ((staleBank.remove ("w1")).2).items ("w1") = none ∧
    ("w1" : String) ∈ (mapFind? ((staleBank.remove ("w1")).2).by_level ("A1")).getD [] := by
  refine ⟨by decide, by decide, by decide⟩

/-- C10: removing an id that is absent from the primary map returns `none`
and leaves the store – primary map and all four indices – exactly unchanged. -/
theorem remove_absent_id_noop (b : VocabularyBank) (id : String)
    (h : mapFind? b.items id = none) : b.remove id = (none, b) := by
  unfold VocabularyBank.remove
  rw [h]

/-- Witness for C10 on the empty store. -/
theorem remove_absent_id_noop_witness :
    mapFind? emptyBank.items ("zz") = none ∧
    emptyBank.remove ("zz") = (none, emptyBank) :=
  ⟨rfl, remove_absent_id_noop emptyBank ("zz") rfl⟩

/-- In a prefix of a list that puts all key-true elements before all
key-false elements, every key-true position comes before every key-false
position. -/
theorem take_partition_order {α : Type} (p : α → Bool) (A B : List α)
    (hA : ∀ x ∈ A, p x = true) (hB : ∀ x ∈ B, p x = false) (n i j : Nat)
    (hi : i < ((A ++ B).take n).length) (hj : j < ((A ++ B).take n).length)
    (hpi : p (((A ++ B).take n).get ⟨i, hi⟩) = true)
    (hpj : p (((A ++ B).take n).get ⟨j, hj⟩) = false) : i < j := by
  have hi2 : i < (A ++ B).length := by
    have := List.length_take n (A ++ B)
    omega
  have hj2 : j < (A ++ B).length := by
    have := List.length_take n (A ++ B)
    omega
  rw [List.get_eq_getElem, List.getElem_take] at hpi hpj
  have hiA : i < A.length := by
    by_contra hc
    push_neg at hc
    rw [List.getElem_append_right hc] at hpi
    have hmem := List.getElem_mem
      (show i - A.length < B.length by simp [List.length_append] at hi2; omega)
    rw [hB _ hmem] at hpi
    exact absurd hpi (by decide)
  have hjA : A.length ≤ j := by
    by_contra hc
    push_neg at hc
    rw [List.getElem_append_left hc] at hpj
    have hmem := List.getElem_mem hc
    rw [hA _ hmem] at hpj
    exact absurd hpj (by decide)
  omega

/-- C8: `search` returns items that match the query (exactly the matching
items when no limit is given), places every returned exact match before
every returned non-exact match, and returns at most `limit` items when a
limit is given. -/
theorem search_spec (b : VocabularyBank) (query : List Char) (limit : Option Nat) :
    (∀ it ∈ b.search query limit, it.matches_query query = true) ∧
    (limit = none → ∀ it, it ∈ b.search query limit ↔
      it ∈ b.items.map Prod.snd ∧ it.matches_query query = true) ∧
    (∀ l, limit = some l → (b.search query limit).length ≤ l) ∧
    (∀ i j (hi : i < (b.search query limit).length)
      (hj : j < (b.search query limit).length),
      isExactMatch ((b.search query limit).get ⟨i, hi⟩) (toLowerStr query) = true →
      isExactMatch ((b.search query limit).get ⟨j, hj⟩) (toLowerStr query) = false →
      i < j) := by
  have hAB : ∀ x,
      x ∈ ((b.items.map Prod.snd).filter (fun it => it.matches_query query)).filter
            (fun it => isExactMatch it (toLowerStr query)) ++
          ((b.items.map Prod.snd).filter (fun it => it.matches_query query)).filter
            (fun it => !isExactMatch it (toLowerStr query)) ↔
      x ∈ (b.items.map Prod.snd).filter (fun it => it.matches_query query) := by
    intro x
    simp only [List.mem_append, List.mem_filter, Bool.not_eq_true']
    cases h : isExactMatch x (toLowerStr query) <;> simp [h]
  obtain ⟨n, hn⟩ : ∃ n, b.search query limit =
      (((b.items.map Prod.snd).filter (fun it => it.matches_query query)).filter
          (fun it => isExactMatch it (toLowerStr query)) ++
        ((b.items.map Prod.snd).filter (fun it => it.matches_query query)).filter
          (fun it => !isExactMatch it (toLowerStr query))).take n := by
    cases limit with
    | none => exact ⟨_, (List.take_length _).symm⟩
    | some l => exact ⟨l, rfl⟩
  refine ⟨?_, ?_, ?_, ?_⟩
  · intro it hit
    rw [hn] at hit
    have hmem := (List.take_sublist _ _).subset hit
    exact (List.mem_filter.mp ((hAB it).mp hmem)).2
  · intro hl it
    subst hl
    show it ∈ _ ++ _ ↔ _
    rw [hAB it, List.mem_filter]
  · intro l hl
    subst hl
    show (List.take l (_ ++ _)).length ≤ l
    rw [List.length_take]
    omega
  · rw [hn]
    intro i j hi hj hpi hpj
    exact take_partition_order (fun it => isExactMatch it (toLowerStr query)) _ _
      (fun x hx => (List.mem_filter.mp hx).2)
      (fun x hx => by
        have := (List.mem_filter.mp hx).2
        simpa using this)
      n i j hi hj hpi hpj

/-- Witness for C8: searching the sample store for the exact target with
limit 1 returns at most one item. -/
theorem search_spec_witness :
    (some 1 = (some 1 : Option Nat)) ∧
    (staleBank.search (['o', 'l', 'a']) (some 1)).length ≤ 1 :=
  ⟨rfl, (search_spec staleBank (['o', 'l', 'a']) (some 1)).2.2.1 1 rfl⟩

end GreengoLingo
